import Mathlib

/-!
# Verification of the `tren` transaction-journal processor

Shallow embedding of the core of the `tren` repository (src/accounts.rs,
src/parser.rs, src/dispute_look_up.rs, src/channel.rs, src/main.rs) and
proofs about it.

Modelling conventions:
* `rust_decimal::Decimal` is a sign, a 96-bit mantissa and a scale
  `0 ≤ scale ≤ 28`, denoting the exact value `±mantissa × 10^(−scale)`;
  every such value is an integer multiple of `10⁻²⁸`. The program only
  ever adds, subtracts, negates and compares decimals — all exact — so
  `Amount` is modelled as the INTEGER NUMBER OF `10⁻²⁸` UNITS (`ℤ`): a
  decimal-string `m × 10^(−sc)` denotes `m · 10^(28−sc)` units. Addition,
  subtraction and order on `ℤ` coincide with Decimal's. The 96-bit
  mantissa cap and 28-digit scale cap are enforced in decimal-string
  parsing (`parseDecimal`), exactly where `from_str_exact` enforces them.
* `ClientID` (`u16`) and `TransactionID` (`u32`) are `ℕ`; the parsers
  enforce the `≤ 65535` / `≤ 4294967295` range checks exactly as
  `str::parse::<u16>` / `str::parse::<u32>` do.
* `HashMap` state (the account table of `Accounts`, the dispute cache of
  `DisputeFinder`) is modelled as an association list with unique keys,
  updated functionally; iteration order of the report is the list order
  (the source's row order is unspecified HashMap order).
* Fallible Rust functions returning `eyre::Result` become `Option`/`Except`.
-/

namespace Tren

/-- `pub type ClientID = u16;` (src/aliases.rs). -/
abbrev ClientID := ℕ

/-- `pub type TransactionID = u32;` (src/aliases.rs). -/
abbrev TransactionID := ℕ

/-- `pub type Amount = Decimal;` (src/aliases.rs); an exact decimal value,
represented as its integer number of `10⁻²⁸` units. -/
abbrev Amount := ℤ

/-- The number of `10⁻²⁸` units in the whole number `n` — `n` as a decimal
value. Used to write concrete decimal constants such as `5.0`. -/
def wholeDecimal (n : ℤ) : Amount := n * 10 ^ 28

/-- `enum AccountStatus { Active, Frozen }` (src/accounts.rs). -/
inductive AccountStatus
  | active
  | frozen
deriving DecidableEq

/-- `AccountStatus::is_frozen` (src/accounts.rs). -/
def AccountStatus.isFrozen : AccountStatus → Bool
  | .active => false
  | .frozen => true

/-- `struct AccountDetails` (src/accounts.rs): status plus the three
balances `total`, `available`, `held`. -/
structure AccountDetails where
  accountStatus : AccountStatus
  total : Amount
  available : Amount
  held : Amount
deriving DecidableEq

/-- `impl Default for AccountDetails` (src/accounts.rs): Active, all
balances zero. -/
def defaultAccount : AccountDetails :=
  { accountStatus := .active, total := 0, available := 0, held := 0 }

/-- `AccountDetails::increase_balance` (src/accounts.rs). -/
def AccountDetails.increaseBalance (d : AccountDetails) (amount : Amount) : AccountDetails :=
  { d with total := d.total + amount, available := d.available + amount }

/-- `AccountDetails::decrease_balance` (src/accounts.rs). -/
def AccountDetails.decreaseBalance (d : AccountDetails) (amount : Amount) : AccountDetails :=
  { d with total := d.total - amount, available := d.available - amount }

/-- `AccountDetails::deposit` (src/accounts.rs). -/
def AccountDetails.deposit (d : AccountDetails) (amount : Amount) : AccountDetails :=
  d.increaseBalance amount

/-- `AccountDetails::withdraw` (src/accounts.rs); the guard lives in
`Accounts::withdraw`, not here. -/
def AccountDetails.withdraw (d : AccountDetails) (amount : Amount) : AccountDetails :=
  d.decreaseBalance amount

/-- `AccountDetails::dispute` (src/accounts.rs): `held += amount;
available -= amount`. -/
def AccountDetails.dispute (d : AccountDetails) (amount : Amount) : AccountDetails :=
  { d with held := d.held + amount, available := d.available - amount }

/-- `AccountDetails::resolve` (src/accounts.rs): `held -= amount;
available += amount`. -/
def AccountDetails.resolve (d : AccountDetails) (amount : Amount) : AccountDetails :=
  { d with held := d.held - amount, available := d.available + amount }

/-- `AccountDetails::chargeback` (src/accounts.rs): `held -= amount;
total -= amount; status = Frozen`. -/
def AccountDetails.chargeback (d : AccountDetails) (amount : Amount) : AccountDetails :=
  { d with held := d.held - amount, total := d.total - amount, accountStatus := .frozen }

/-- `struct Accounts(HashMap<ClientID, AccountDetails>)` (src/accounts.rs),
as an association list with unique keys. -/
abbrev Accounts := List (ClientID × AccountDetails)

/-- `Accounts::default()`: the empty account table. -/
def Accounts.empty : Accounts := []

/-- `HashMap::get` on the account table. -/
def Accounts.find? : Accounts → ClientID → Option AccountDetails
  | [], _ => none
  | (c', d) :: rest, c => if c' = c then some d else Accounts.find? rest c

/-- `HashMap` insert/overwrite on the account table: replaces the value at
the key if present, otherwise adds the entry. -/
def Accounts.set : Accounts → ClientID → AccountDetails → Accounts
  | [], c, d => [(c, d)]
  | (c', d') :: rest, c, d =>
    if c' = c then (c', d) :: rest else (c', d') :: Accounts.set rest c d

/-- `Accounts::deposit` (src/accounts.rs): `entry(client_id).or_insert_with(default)`
then `AccountDetails::deposit`. -/
def Accounts.deposit (accs : Accounts) (clientId : ClientID) (amount : Amount) : Accounts :=
  match accs.find? clientId with
  | some d => accs.set clientId (d.deposit amount)
  | none => accs.set clientId (defaultAccount.deposit amount)

/-- `Accounts::withdraw` (src/accounts.rs): the `entry(...).or_insert_with(default)`
runs BEFORE the funds check, so a fresh client gets a default account even
when the withdrawal is then rejected; `amount > available` is rejected with
a warning (no error surfaced), otherwise `AccountDetails::withdraw`. -/
def Accounts.withdraw (accs : Accounts) (clientId : ClientID) (amount : Amount) : Accounts :=
  match accs.find? clientId with
  | some d => if amount > d.available then accs else accs.set clientId (d.withdraw amount)
  | none =>
    if amount > defaultAccount.available then accs.set clientId defaultAccount
    else accs.set clientId (defaultAccount.withdraw amount)

/-- `Accounts::dispute` (src/accounts.rs): `get_mut`, erroring for a
non-existent account (no implicit creation). -/
def Accounts.dispute (accs : Accounts) (clientId : ClientID) (amount : Amount) :
    Except String Accounts :=
  match accs.find? clientId with
  | some d => .ok (accs.set clientId (d.dispute amount))
  | none => .error "cannot dispute transaction for non-existent account"

/-- `Accounts::resolve` (src/accounts.rs). -/
def Accounts.resolve (accs : Accounts) (clientId : ClientID) (amount : Amount) :
    Except String Accounts :=
  match accs.find? clientId with
  | some d => .ok (accs.set clientId (d.resolve amount))
  | none => .error "cannot resolve disputed transaction for non-existent account"

/-- `Accounts::chargeback` (src/accounts.rs). -/
def Accounts.chargeback (accs : Accounts) (clientId : ClientID) (amount : Amount) :
    Except String Accounts :=
  match accs.find? clientId with
  | some d => .ok (accs.set clientId (d.chargeback amount))
  | none => .error "cannot chargeback transaction for non-existent account"

/-- `enum TransactionMessage` (src/channel.rs): the unit the ledger
aggregator consumes; each variant carries `(ClientID, Amount)`. -/
inductive TransactionMessage
  | deposit (clientId : ClientID) (amount : Amount)
  | withdrawal (clientId : ClientID) (amount : Amount)
  | dispute (clientId : ClientID) (amount : Amount)
  | resolve (clientId : ClientID) (amount : Amount)
  | chargeback (clientId : ClientID) (amount : Amount)
deriving DecidableEq

/-- One iteration of the aggregator loop in `main` (src/main.rs): apply the
message; errors from dispute/resolve/chargeback are logged and dropped. -/
def applyMessage (accs : Accounts) : TransactionMessage → Accounts
  | .deposit c a => accs.deposit c a
  | .withdrawal c a => accs.withdraw c a
  | .dispute c a =>
    match accs.dispute c a with
    | .ok accs' => accs'
    | .error _ => accs
  | .resolve c a =>
    match accs.resolve c a with
    | .ok accs' => accs'
    | .error _ => accs
  | .chargeback c a =>
    match accs.chargeback c a with
    | .ok accs' => accs'
    | .error _ => accs

/-- The aggregator loop (src/main.rs): fold the received messages, in
arrival order, over the account table. -/
def applyMessages (msgs : List TransactionMessage) (accs : Accounts) : Accounts :=
  msgs.foldl applyMessage accs

/-- One output row of `Accounts::print_report` (src/accounts.rs):
`client,available,held,total,locked`. -/
structure ReportRow where
  client : ClientID
  available : Amount
  held : Amount
  total : Amount
  locked : Bool
deriving DecidableEq

/-- `Accounts::print_report` (src/accounts.rs): one row per entry of the
account table. -/
def printReport (accs : Accounts) : List ReportRow :=
  accs.map fun p => ⟨p.1, p.2.available, p.2.held, p.2.total, p.2.accountStatus.isFrozen⟩

/-! ## Journal parsing (src/parser.rs)

A journal is the list of data records after the `type,client,tx,amount`
header; each record is its four fields as strings (the `csv` crate's
`ByteRecord`, which the source indexes as `record[0]..record[3]`; the
journal file is valid UTF-8 per the spec, so fields are strings). -/

/-- One CSV data record: the four fields `type,client,tx,amount`, unparsed. -/
structure RawRecord where
  typ : String
  client : String
  tx : String
  amount : String
deriving DecidableEq

/-- `char::is_ascii_whitespace`: space, tab, newline, form feed, carriage
return. -/
def isAsciiWhitespace (c : Char) : Bool :=
  c = ' ' || c = '\t' || c = '\n' || c = '\x0c' || c = '\r'

/-- `s.retain(|c| !c.is_ascii_whitespace())` (src/parser.rs `parse_type`,
and the equivalent byte filter in `parse_deposit_or_withdrawal`). -/
def stripAsciiWhitespace (s : String) : String :=
  ⟨s.data.filter fun c => !isAsciiWhitespace c⟩

/-- `record.contains(&b' ')`: the field contains a space byte (0x20). A
space character is a single UTF-8 byte, so byte- and character-level
containment agree. -/
def containsSpaceByte (s : String) : Bool :=
  s.data.contains ' '

/-- `enum RecordType` (src/parser.rs). -/
inductive RecordType
  | deposit
  | withdrawal
  | dispute
  | resolve
  | chargeback
deriving DecidableEq

/-- The literal-set match shared by both arms of `parse_type`
(src/parser.rs): case-sensitive comparison against the five record-type
literals; anything else is an error (`None` here), which `parse_journal`
silently skips. -/
def matchTypeToken (s : String) : Option RecordType :=
  if s = "deposit" then some .deposit
  else if s = "withdrawal" then some .withdrawal
  else if s = "dispute" then some .dispute
  else if s = "resolve" then some .resolve
  else if s = "chargeback" then some .chargeback
  else none

/-- `parse_type` (src/parser.rs): if the field contains a space byte, strip
all embedded ASCII whitespace and match; otherwise match the raw field. -/
def parseType (s : String) : Option RecordType :=
  if containsSpaceByte s then matchTypeToken (stripAsciiWhitespace s) else matchTypeToken s

/-- Accumulate decimal digits, `str::parse` style: every character must be
a digit. -/
def digitsToNatAux : Nat → List Char → Option Nat
  | acc, [] => some acc
  | acc, c :: rest =>
    if c.isDigit then digitsToNatAux (acc * 10 + (c.toNat - 48)) rest else none

/-- `str::parse::<uN>` (used by `parse_deposit_or_withdrawal` and
`parse_dispute_data`, src/parser.rs): an optional leading `+`, then one or
more digits, no whitespace tolerated, value within range. -/
def parseUnsigned (s : String) (maxVal : Nat) : Option Nat :=
  let cs := match s.data with
    | '+' :: rest => rest
    | cs => cs
  match cs with
  | [] => none
  | _ =>
    match digitsToNatAux 0 cs with
    | some n => if n ≤ maxVal then some n else none
    | none => none

/-- `str::parse::<u16>` for the `client` field. -/
def parseU16 (s : String) : Option ClientID := parseUnsigned s 65535

/-- `str::parse::<u32>` for the `tx` field. -/
def parseU32 (s : String) : Option TransactionID := parseUnsigned s 4294967295

/-- Digit/point/underscore scan of `rust_decimal`'s string parser: at most
one `.`, `_` separators only after a digit, at least one digit overall;
returns the mantissa and the number of fractional digits. -/
def decimalDigitsAux : List Char → Bool → Bool → Nat → Nat → Option (Nat × Nat)
  | [], _, seenDigit, m, sc => if seenDigit then some (m, sc) else none
  | c :: rest, seenDot, seenDigit, m, sc =>
    if c.isDigit then
      decimalDigitsAux rest seenDot true (m * 10 + (c.toNat - 48)) (if seenDot then sc + 1 else sc)
    else if c = '.' then
      if seenDot then none else decimalDigitsAux rest true seenDigit m sc
    else if c = '_' then
      if seenDigit then decimalDigitsAux rest seenDot seenDigit m sc else none
    else none

/-- `Decimal::from_str_exact` (rust_decimal, used in
`parse_deposit_or_withdrawal`): optional sign, digit string with at most
one decimal point; exact mode rejects more than 28 fractional digits and a
mantissa outside 96 bits instead of rounding. The parsed value
`±m × 10^(−sc)` is `±m · 10^(28−sc)` in `10⁻²⁸` units. -/
def parseDecimal (s : String) : Option Amount :=
  let signAndDigits : Bool × List Char := match s.data with
    | '-' :: rest => (true, rest)
    | '+' :: rest => (false, rest)
    | cs => (false, cs)
  match decimalDigitsAux signAndDigits.2 false false 0 0 with
  | none => none
  | some (m, sc) =>
    if sc ≤ 28 ∧ m < 2 ^ 96 then
      some ((if signAndDigits.1 then -(m : ℤ) else (m : ℤ)) * 10 ^ (28 - sc))
    else none

/-- `parse_deposit_or_withdrawal` (src/parser.rs): the amount field has its
ASCII whitespace stripped before decimal parsing — but only when it
contains a space byte; the client and tx fields are parsed raw, with no
whitespace stripping. Any field failure is fatal (`None`). -/
def parseDepositOrWithdrawal (r : RawRecord) :
    Option (ClientID × TransactionID × Amount) := do
  let amount ←
    if containsSpaceByte r.amount then parseDecimal (stripAsciiWhitespace r.amount)
    else parseDecimal r.amount
  let clientId ← parseU16 r.client
  let transactionId ← parseU32 r.tx
  pure (clientId, transactionId, amount)

/-- `parse_dispute_data` (src/parser.rs): client and tx parsed raw, no
whitespace stripping. -/
def parseDisputeData (r : RawRecord) : Option (ClientID × TransactionID) := do
  let clientId ← parseU16 r.client
  let transactionId ← parseU32 r.tx
  pure (clientId, transactionId)

/-- The raw-byte type test of `find_transaction` (src/parser.rs):
`match &record[0] { b"withdrawal" | b"deposit" => ..., _ => () }` — exact
byte equality, no whitespace stripping. -/
def isRawDepositOrWithdrawal (s : String) : Bool :=
  s = "withdrawal" || s = "deposit"

/-- Failure modes of `find_transaction`: a record that fails to parse
aborts the scan (`?` propagation); otherwise "not found" (either by the
early-termination rule or at end of file). -/
inductive FindErr
  | parseFailure
  | notFound
deriving DecidableEq

instance {ε α : Type} [DecidableEq ε] [DecidableEq α] : DecidableEq (Except ε α) := fun a b =>
  match a, b with
  | .ok x, .ok y =>
    if h : x = y then isTrue (by subst h; rfl) else isFalse fun hc => h (by cases hc; rfl)
  | .error e, .error f =>
    if h : e = f then isTrue (by subst h; rfl) else isFalse fun hc => h (by cases hc; rfl)
  | .ok _, .error _ => isFalse fun hc => by cases hc
  | .error _, .ok _ => isFalse fun hc => by cases hc

/-- `find_transaction` (src/parser.rs): seek to the start, scan records
whose raw type field is `deposit`/`withdrawal`; return the first whose
client id and transaction id both match; report not-found as soon as a
scanned record's transaction id strictly exceeds the requested one, or at
end of file. -/
def findTransaction : List RawRecord → ClientID → TransactionID →
    Except FindErr (ClientID × TransactionID × Amount)
  | [], _, _ => .error .notFound
  | r :: rest, clientId, transactionId =>
    if isRawDepositOrWithdrawal r.typ then
      match parseDepositOrWithdrawal r with
      | none => .error .parseFailure
      | some (foundClientId, foundTransactionId, amount) =>
        if foundClientId = clientId ∧ transactionId = foundTransactionId then
          .ok (foundClientId, foundTransactionId, amount)
        else if foundTransactionId > transactionId then
          .error .notFound
        else
          findTransaction rest clientId transactionId
    else
      findTransaction rest clientId transactionId

/-! ## Dispute resolver (src/dispute_look_up.rs) -/

/-- `enum DisputeLookUpMessage` (src/channel.rs): the unit the dispute
resolver consumes; each variant carries `(ClientID, TransactionID)`. -/
inductive DisputeLookUpMessage
  | dispute (clientId : ClientID) (transactionId : TransactionID)
  | resolve (clientId : ClientID) (transactionId : TransactionID)
  | chargeback (clientId : ClientID) (transactionId : TransactionID)
deriving DecidableEq

/-- `DisputeLookUpMessage::client_id` (src/channel.rs). -/
def DisputeLookUpMessage.clientId : DisputeLookUpMessage → ClientID
  | .dispute c _ => c
  | .resolve c _ => c
  | .chargeback c _ => c

/-- `DisputeLookUpMessage::transaction_id` (src/channel.rs). -/
def DisputeLookUpMessage.transactionId : DisputeLookUpMessage → TransactionID
  | .dispute _ t => t
  | .resolve _ t => t
  | .chargeback _ t => t

/-- The `cache: HashMap<TransactionID, Amount>` of `DisputeFinder`
(src/dispute_look_up.rs), as an association list with unique keys. Note
the key is the transaction id alone — no client id. -/
abbrev Cache := List (TransactionID × Amount)

/-- `HashMap::get` on the dispute cache. -/
def cacheFind? : Cache → TransactionID → Option Amount
  | [], _ => none
  | (t', a) :: rest, t => if t' = t then some a else cacheFind? rest t

/-- `HashMap::insert` on the dispute cache. -/
def cacheInsert : Cache → TransactionID → Amount → Cache
  | [], t, a => [(t, a)]
  | (t', a') :: rest, t, a =>
    if t' = t then (t', a) :: rest else (t', a') :: cacheInsert rest t a

/-- `DisputeFinder::remove_from_cache` (src/dispute_look_up.rs):
`HashMap::remove`; the loop ignores its `Result`, so only the removal
matters here. -/
def removeFromCache : Cache → TransactionID → Cache
  | [], _ => []
  | (t', a) :: rest, t =>
    if t' = t then removeFromCache rest t else (t', a) :: removeFromCache rest t

/-- `DisputeFinder::find_dispute_amount` (src/dispute_look_up.rs): a cache
hit (keyed by transaction id only — the client id is NOT checked) returns
the cached amount without touching the journal; a miss re-scans the
journal from the start via `find_transaction` and, on success, inserts the
found amount into the cache. Returns the new cache and the outcome. -/
def findDisputeAmount (journal : List RawRecord) (cache : Cache)
    (clientId : ClientID) (transactionId : TransactionID) :
    Cache × Except FindErr Amount :=
  match cacheFind? cache transactionId with
  | some amount => (cache, .ok amount)
  | none =>
    match findTransaction journal clientId transactionId with
    | .ok found => (cacheInsert cache transactionId found.2.2, .ok found.2.2)
    | .error e => (cache, .error e)

/-- One iteration of `run_dispute_look_up_loop` (src/dispute_look_up.rs):
handle one look-up request, returning the new cache and the emitted
`TransactionMessage`s (empty on failure — the request is logged and
dropped). A `Dispute` leaves the cache entry in place; a successful
`Resolve`/`Chargeback` emits its message and removes the entry. -/
def resolverStep (journal : List RawRecord) (cache : Cache) :
    DisputeLookUpMessage → Cache × List TransactionMessage
  | .dispute clientId transactionId =>
    match findDisputeAmount journal cache clientId transactionId with
    | (cache', .ok amount) => (cache', [.dispute clientId amount])
    | (cache', .error _) => (cache', [])
  | .resolve clientId transactionId =>
    match findDisputeAmount journal cache clientId transactionId with
    | (cache', .ok amount) =>
      (removeFromCache cache' transactionId, [.resolve clientId amount])
    | (cache', .error _) => (cache', [])
  | .chargeback clientId transactionId =>
    match findDisputeAmount journal cache clientId transactionId with
    | (cache', .ok amount) =>
      (removeFromCache cache' transactionId, [.chargeback clientId amount])
    | (cache', .error _) => (cache', [])

/-! ## The pipeline (src/main.rs + src/parser.rs `parse_journal`)

`parse_journal` routes deposits/withdrawals to the transaction queue and
dispute/resolve/chargeback look-ups to the dispute-lookup queue; the
resolver turns look-ups into further transaction-queue messages. The
aggregator sees some interleaving of the two producers.
`runPipelineSeq` is one realizable interleaving — the resolver handles
each look-up as soon as the parser emits it, and the queues deliver in
emission order. A record whose type token is unrecognized is skipped; a
recognized record whose fields fail to parse is a fatal parse error that
stops the parser, leaving the messages enqueued so far. -/

def runPipelineAux (journal : List RawRecord) :
    List RawRecord → Cache → List TransactionMessage
  | [], _ => []
  | r :: rest, cache =>
    match parseType r.typ with
    | none => runPipelineAux journal rest cache
    | some .deposit =>
      match parseDepositOrWithdrawal r with
      | none => []
      | some (c, _, a) => .deposit c a :: runPipelineAux journal rest cache
    | some .withdrawal =>
      match parseDepositOrWithdrawal r with
      | none => []
      | some (c, _, a) => .withdrawal c a :: runPipelineAux journal rest cache
    | some .dispute =>
      match parseDisputeData r with
      | none => []
      | some (c, t) =>
        let step := resolverStep journal cache (.dispute c t)
        step.2 ++ runPipelineAux journal rest step.1
    | some .resolve =>
      match parseDisputeData r with
      | none => []
      | some (c, t) =>
        let step := resolverStep journal cache (.resolve c t)
        step.2 ++ runPipelineAux journal rest step.1
    | some .chargeback =>
      match parseDisputeData r with
      | none => []
      | some (c, t) =>
        let step := resolverStep journal cache (.chargeback c t)
        step.2 ++ runPipelineAux journal rest step.1

/-- The transaction-message sequence one realizable schedule of the
pipeline delivers to the aggregator for a given journal. -/
def runPipelineSeq (journal : List RawRecord) : List TransactionMessage :=
  runPipelineAux journal journal []

/-! ## Specification-side definitions and invariant predicates -/

/-- Written from the spec's words for claim C6 (not from the source, which
is `findTransaction`): scan the already-parsed deposit/withdrawal entries
from the start; return the amount of the first entry whose client id and
transaction id both match exactly; report not-found as soon as an entry's
transaction id strictly exceeds the requested one, or at end of file. -/
def findTransactionSpec :
    List (ClientID × TransactionID × Amount) → ClientID → TransactionID → Option Amount
  | [], _, _ => none
  | (fc, ft, a) :: rest, c, t =>
    if fc = c ∧ ft = t then some a
    else if ft > t then none
    else findTransactionSpec rest c t

/-- The deposit/withdrawal records of a journal (selected by the raw-byte
type test `find_transaction` uses), parsed in order; `none` when any of
them fails to parse (which would abort the scan). -/
def depositWithdrawalEntries : List RawRecord → Option (List (ClientID × TransactionID × Amount))
  | [] => some []
  | r :: rest =>
    if isRawDepositOrWithdrawal r.typ then
      match parseDepositOrWithdrawal r, depositWithdrawalEntries rest with
      | some p, some l => some (p :: l)
      | _, _ => none
    else depositWithdrawalEntries rest

/-- The accounting invariant of the spec: every account's `total` equals
`available + held`. -/
def BalancedAccounts (accs : Accounts) : Prop :=
  ∀ p ∈ accs, p.2.total = p.2.available + p.2.held

/-- The client has an account (a row in the final report). -/
def hasAccount (accs : Accounts) (c : ClientID) : Prop :=
  ∃ d, accs.find? c = some d

/-- The client's account exists and is frozen. -/
def frozenAt (accs : Accounts) (c : ClientID) : Prop :=
  ∃ d, accs.find? c = some d ∧ d.accountStatus = .frozen

/-- The message is a deposit or withdrawal addressed to client `c` — the
only messages whose processing creates an account. -/
def isDepositOrWithdrawalFor (c : ClientID) : TransactionMessage → Prop
  | .deposit c' _ => c' = c
  | .withdrawal c' _ => c' = c
  | _ => False

instance (c : ClientID) (m : TransactionMessage) : Decidable (isDepositOrWithdrawalFor c m) := by
  cases m <;> simp only [isDepositOrWithdrawalFor] <;> infer_instance

/-! ## Helper lemmas: the account table as an association list -/

theorem Accounts.find?_set_self (accs : Accounts) (c : ClientID) (d : AccountDetails) :
    (accs.set c d).find? c = some d := by
  induction accs with
  | nil => simp [Accounts.set, Accounts.find?]
  | cons p rest ih =>
    by_cases h : p.1 = c
    · simp [Accounts.set, Accounts.find?, h]
    · simp [Accounts.set, Accounts.find?, h, ih]

theorem Accounts.find?_set_ne (accs : Accounts) {c c' : ClientID} (h : c ≠ c')
    (d : AccountDetails) : (accs.set c d).find? c' = accs.find? c' := by
  induction accs with
  | nil => simp [Accounts.set, Accounts.find?, h]
  | cons p rest ih =>
    by_cases hp : p.1 = c
    · simp [Accounts.set, Accounts.find?, hp, h]
    · simp only [Accounts.set, hp, if_false, Accounts.find?]
      by_cases hp' : p.1 = c'
      · simp [hp']
      · simp [hp', ih]

theorem Accounts.mem_set (accs : Accounts) (c : ClientID) (d : AccountDetails)
    (p : ClientID × AccountDetails) (h : p ∈ accs.set c d) : p = (c, d) ∨ p ∈ accs := by
  induction accs with
  | nil => simpa [Accounts.set] using h
  | cons q rest ih =>
    by_cases hq : q.1 = c
    · simp only [Accounts.set, hq, if_true] at h
      rcases List.mem_cons.mp h with h | h
      · left; rw [h]
      · right; exact List.mem_cons_of_mem _ h
    · simp only [Accounts.set, hq, if_false] at h
      rcases List.mem_cons.mp h with h | h
      · right; subst h; exact List.mem_cons_self _ _
      · rcases ih h with h' | h'
        · exact Or.inl h'
        · right; exact List.mem_cons_of_mem _ h'

theorem Accounts.find?_mem (accs : Accounts) (c : ClientID) (d : AccountDetails)
    (h : accs.find? c = some d) : (c, d) ∈ accs := by
  induction accs with
  | nil => simp [Accounts.find?] at h
  | cons p rest ih =>
    by_cases hp : p.1 = c
    · simp only [Accounts.find?, hp, if_true, Option.some.injEq] at h
      subst h
      have : p = (c, p.2) := by rw [← hp]
      rw [← this]
      exact List.mem_cons_self _ _
    · simp only [Accounts.find?, hp, if_false] at h
      exact List.mem_cons_of_mem _ (ih h)

theorem Accounts.mem_find?_isSome (accs : Accounts) (c : ClientID) (d : AccountDetails)
    (h : (c, d) ∈ accs) : ∃ d', accs.find? c = some d' := by
  induction accs with
  | nil => simp at h
  | cons p rest ih =>
    by_cases hp : p.1 = c
    · exact ⟨p.2, by simp [Accounts.find?, hp]⟩
    · rcases List.mem_cons.mp h with h' | h'
      · exact absurd (congrArg Prod.fst h').symm hp
      · rcases ih h' with ⟨d', hd'⟩
        exact ⟨d', by simp [Accounts.find?, hp, hd']⟩

/-! ## Helper lemmas: the balance invariant -/

theorem balanced_set {accs : Accounts} (h : BalancedAccounts accs) (c : ClientID)
    {d : AccountDetails} (hd : d.total = d.available + d.held) :
    BalancedAccounts (accs.set c d) := by
  intro p hp
  rcases Accounts.mem_set accs c d p hp with h' | h'
  · rw [h']; exact hd
  · exact h p h'

theorem balanced_applyMessage (accs : Accounts) (m : TransactionMessage)
    (h : BalancedAccounts accs) : BalancedAccounts (applyMessage accs m) := by
  cases m with
  | deposit c a =>
    cases hf : accs.find? c with
    | some d =>
      obtain ⟨st, tt, av, hl⟩ := d
      have hd : tt = av + hl := by simpa using h _ (Accounts.find?_mem accs c _ hf)
      simp only [applyMessage, Accounts.deposit, hf]
      exact balanced_set h c (by
        simp [AccountDetails.deposit, AccountDetails.increaseBalance]; linarith)
    | none =>
      simp only [applyMessage, Accounts.deposit, hf]
      exact balanced_set h c (by
        simp [AccountDetails.deposit, AccountDetails.increaseBalance, defaultAccount])
  | withdrawal c a =>
    cases hf : accs.find? c with
    | some d =>
      obtain ⟨st, tt, av, hl⟩ := d
      have hd : tt = av + hl := by simpa using h _ (Accounts.find?_mem accs c _ hf)
      simp only [applyMessage, Accounts.withdraw, hf]
      by_cases hgt : a > av
      · simpa [hgt] using h
      · simp only [hgt, if_false]
        exact balanced_set h c (by
          simp [AccountDetails.withdraw, AccountDetails.decreaseBalance]; linarith)
    | none =>
      simp only [applyMessage, Accounts.withdraw, hf]
      by_cases hgt : a > defaultAccount.available
      · simp only [hgt, if_true]
        exact balanced_set h c (by simp [defaultAccount])
      · simp only [hgt, if_false]
        exact balanced_set h c (by
          simp [AccountDetails.withdraw, AccountDetails.decreaseBalance, defaultAccount])
  | dispute c a =>
    cases hf : accs.find? c with
    | some d =>
      obtain ⟨st, tt, av, hl⟩ := d
      have hd : tt = av + hl := by simpa using h _ (Accounts.find?_mem accs c _ hf)
      simp only [applyMessage, Accounts.dispute, hf]
      exact balanced_set h c (by simp [AccountDetails.dispute]; linarith)
    | none => simpa [applyMessage, Accounts.dispute, hf] using h
  | resolve c a =>
    cases hf : accs.find? c with
    | some d =>
      obtain ⟨st, tt, av, hl⟩ := d
      have hd : tt = av + hl := by simpa using h _ (Accounts.find?_mem accs c _ hf)
      simp only [applyMessage, Accounts.resolve, hf]
      exact balanced_set h c (by simp [AccountDetails.resolve]; linarith)
    | none => simpa [applyMessage, Accounts.resolve, hf] using h
  | chargeback c a =>
    cases hf : accs.find? c with
    | some d =>
      obtain ⟨st, tt, av, hl⟩ := d
      have hd : tt = av + hl := by simpa using h _ (Accounts.find?_mem accs c _ hf)
      simp only [applyMessage, Accounts.chargeback, hf]
      exact balanced_set h c (by simp [AccountDetails.chargeback]; linarith)
    | none => simpa [applyMessage, Accounts.chargeback, hf] using h

theorem balanced_applyMessages (msgs : List TransactionMessage) (accs : Accounts)
    (h : BalancedAccounts accs) : BalancedAccounts (applyMessages msgs accs) := by
  induction msgs generalizing accs with
  | nil => exact h
  | cons m rest ih =>
    simp only [applyMessages, List.foldl]
    exact ih (applyMessage accs m) (balanced_applyMessage accs m h)

/-! ## Helper lemmas: account creation (row existence) -/

theorem hasAccount_set (accs : Accounts) (c c' : ClientID) (d : AccountDetails) :
    hasAccount (accs.set c d) c' ↔ c = c' ∨ hasAccount accs c' := by
  by_cases h : c = c'
  · subst h
    simp [hasAccount, Accounts.find?_set_self]
  · rw [hasAccount, Accounts.find?_set_ne accs h d]
    simp [hasAccount, h]

theorem hasAccount_of_find? {accs : Accounts} {c : ClientID} {d : AccountDetails}
    (h : accs.find? c = some d) : hasAccount accs c := ⟨d, h⟩

theorem hasAccount_applyMessage (accs : Accounts) (m : TransactionMessage) (c : ClientID) :
    hasAccount (applyMessage accs m) c ↔ hasAccount accs c ∨ isDepositOrWithdrawalFor c m := by
  cases m with
  | deposit c' a =>
    cases hf : accs.find? c' with
    | some d =>
      simp only [applyMessage, Accounts.deposit, hf, isDepositOrWithdrawalFor]
      rw [hasAccount_set]
      constructor
      · rintro (h | h)
        · exact Or.inr h
        · exact Or.inl h
      · rintro (h | h)
        · exact Or.inr h
        · subst h; exact Or.inr (hasAccount_of_find? hf)
    | none =>
      simp only [applyMessage, Accounts.deposit, hf, isDepositOrWithdrawalFor]
      rw [hasAccount_set]
      tauto
  | withdrawal c' a =>
    cases hf : accs.find? c' with
    | some d =>
      simp only [applyMessage, Accounts.withdraw, hf, isDepositOrWithdrawalFor]
      by_cases hgt : a > d.available
      · simp only [hgt, if_true]
        constructor
        · exact Or.inl
        · rintro (h | h)
          · exact h
          · subst h; exact hasAccount_of_find? hf
      · simp only [hgt, if_false]
        rw [hasAccount_set]
        constructor
        · rintro (h | h)
          · exact Or.inr h
          · exact Or.inl h
        · rintro (h | h)
          · exact Or.inr h
          · subst h; exact Or.inr (hasAccount_of_find? hf)
    | none =>
      simp only [applyMessage, Accounts.withdraw, hf, isDepositOrWithdrawalFor]
      by_cases hgt : a > defaultAccount.available
      · simp only [hgt, if_true]
        rw [hasAccount_set]
        tauto
      · simp only [hgt, if_false]
        rw [hasAccount_set]
        tauto
  | dispute c' a =>
    cases hf : accs.find? c' with
    | some d =>
      simp only [applyMessage, Accounts.dispute, hf, isDepositOrWithdrawalFor]
      rw [hasAccount_set]
      constructor
      · rintro (h | h)
        · subst h; exact Or.inl (hasAccount_of_find? hf)
        · exact Or.inl h
      · rintro (h | h)
        · exact Or.inr h
        · exact absurd h not_false
    | none => simp [applyMessage, Accounts.dispute, hf, isDepositOrWithdrawalFor]
  | resolve c' a =>
    cases hf : accs.find? c' with
    | some d =>
      simp only [applyMessage, Accounts.resolve, hf, isDepositOrWithdrawalFor]
      rw [hasAccount_set]
      constructor
      · rintro (h | h)
        · subst h; exact Or.inl (hasAccount_of_find? hf)
        · exact Or.inl h
      · rintro (h | h)
        · exact Or.inr h
        · exact absurd h not_false
    | none => simp [applyMessage, Accounts.resolve, hf, isDepositOrWithdrawalFor]
  | chargeback c' a =>
    cases hf : accs.find? c' with
    | some d =>
      simp only [applyMessage, Accounts.chargeback, hf, isDepositOrWithdrawalFor]
      rw [hasAccount_set]
      constructor
      · rintro (h | h)
        · subst h; exact Or.inl (hasAccount_of_find? hf)
        · exact Or.inl h
      · rintro (h | h)
        · exact Or.inr h
        · exact absurd h not_false
    | none => simp [applyMessage, Accounts.chargeback, hf, isDepositOrWithdrawalFor]

theorem hasAccount_applyMessages (msgs : List TransactionMessage) (accs : Accounts)
    (c : ClientID) :
    hasAccount (applyMessages msgs accs) c ↔
      hasAccount accs c ∨ ∃ m ∈ msgs, isDepositOrWithdrawalFor c m := by
  induction msgs generalizing accs with
  | nil => simp [applyMessages]
  | cons m rest ih =>
    simp only [applyMessages, List.foldl] at *
    rw [ih (applyMessage accs m), hasAccount_applyMessage]
    simp only [List.mem_cons]
    constructor
    · rintro ((h | h) | ⟨m', hm', h⟩)
      · exact Or.inl h
      · exact Or.inr ⟨m, Or.inl rfl, h⟩
      · exact Or.inr ⟨m', Or.inr hm', h⟩
    · rintro (h | ⟨m', hm' | hm', h⟩)
      · exact Or.inl (Or.inl h)
      · subst hm'; exact Or.inl (Or.inr h)
      · exact Or.inr ⟨m', hm', h⟩

/-! ## Helper lemmas: freeze permanence -/

theorem frozenAt_applyMessage (accs : Accounts) (m : TransactionMessage) (c : ClientID)
    (h : frozenAt accs c) : frozenAt (applyMessage accs m) c := by
  obtain ⟨d, hfind, hfz⟩ := h
  cases m with
  | deposit c' a =>
    by_cases hc : c' = c
    · subst hc
      exact ⟨d.deposit a, by
        simp [applyMessage, Accounts.deposit, hfind, Accounts.find?_set_self], by
        simpa [AccountDetails.deposit, AccountDetails.increaseBalance] using hfz⟩
    · refine ⟨d, ?_, hfz⟩
      cases hf : accs.find? c' with
      | some d' =>
        simp only [applyMessage, Accounts.deposit, hf]
        rw [Accounts.find?_set_ne accs hc]; exact hfind
      | none =>
        simp only [applyMessage, Accounts.deposit, hf]
        rw [Accounts.find?_set_ne accs hc]; exact hfind
  | withdrawal c' a =>
    by_cases hc : c' = c
    · subst hc
      by_cases hgt : a > d.available
      · exact ⟨d, by simp [applyMessage, Accounts.withdraw, hfind, hgt], hfz⟩
      · exact ⟨d.withdraw a, by
          simp [applyMessage, Accounts.withdraw, hfind, hgt, Accounts.find?_set_self], by
          simpa [AccountDetails.withdraw, AccountDetails.decreaseBalance] using hfz⟩
    · refine ⟨d, ?_, hfz⟩
      cases hf : accs.find? c' with
      | some d' =>
        simp only [applyMessage, Accounts.withdraw, hf]
        by_cases hgt : a > d'.available
        · simpa [hgt] using hfind
        · simp only [hgt, if_false]
          rw [Accounts.find?_set_ne accs hc]; exact hfind
      | none =>
        simp only [applyMessage, Accounts.withdraw, hf]
        by_cases hgt : a > defaultAccount.available
        · simp only [hgt, if_true]
          rw [Accounts.find?_set_ne accs hc]; exact hfind
        · simp only [hgt, if_false]
          rw [Accounts.find?_set_ne accs hc]; exact hfind
  | dispute c' a =>
    by_cases hc : c' = c
    · subst hc
      exact ⟨d.dispute a, by
        simp [applyMessage, Accounts.dispute, hfind, Accounts.find?_set_self], by
        simpa [AccountDetails.dispute] using hfz⟩
    · refine ⟨d, ?_, hfz⟩
      cases hf : accs.find? c' with
      | some d' =>
        simp only [applyMessage, Accounts.dispute, hf]
        rw [Accounts.find?_set_ne accs hc]; exact hfind
      | none => simpa [applyMessage, Accounts.dispute, hf] using hfind
  | resolve c' a =>
    by_cases hc : c' = c
    · subst hc
      exact ⟨d.resolve a, by
        simp [applyMessage, Accounts.resolve, hfind, Accounts.find?_set_self], by
        simpa [AccountDetails.resolve] using hfz⟩
    · refine ⟨d, ?_, hfz⟩
      cases hf : accs.find? c' with
      | some d' =>
        simp only [applyMessage, Accounts.resolve, hf]
        rw [Accounts.find?_set_ne accs hc]; exact hfind
      | none => simpa [applyMessage, Accounts.resolve, hf] using hfind
  | chargeback c' a =>
    by_cases hc : c' = c
    · subst hc
      exact ⟨d.chargeback a, by
        simp [applyMessage, Accounts.chargeback, hfind, Accounts.find?_set_self], by
        simp [AccountDetails.chargeback]⟩
    · refine ⟨d, ?_, hfz⟩
      cases hf : accs.find? c' with
      | some d' =>
        simp only [applyMessage, Accounts.chargeback, hf]
        rw [Accounts.find?_set_ne accs hc]; exact hfind
      | none => simpa [applyMessage, Accounts.chargeback, hf] using hfind

theorem frozenAt_applyMessages (msgs : List TransactionMessage) (accs : Accounts)
    (c : ClientID) (h : frozenAt accs c) : frozenAt (applyMessages msgs accs) c := by
  induction msgs generalizing accs with
  | nil => exact h
  | cons m rest ih =>
    simp only [applyMessages, List.foldl]
    exact ih (applyMessage accs m) (frozenAt_applyMessage accs m c h)

/-! ## Helper lemmas: the dispute cache -/

theorem cacheFind?_insert (cache : Cache) (t : TransactionID) (a : Amount)
    (t' : TransactionID) :
    cacheFind? (cacheInsert cache t a) t' = if t = t' then some a else cacheFind? cache t' := by
  induction cache with
  | nil => by_cases h : t = t' <;> simp [cacheInsert, cacheFind?, h]
  | cons p rest ih =>
    obtain ⟨t₀, a₀⟩ := p
    by_cases hp : t₀ = t
    · subst hp
      by_cases ht : t₀ = t'
      · subst ht; simp [cacheInsert, cacheFind?]
      · simp [cacheInsert, cacheFind?, ht]
    · by_cases ht' : t₀ = t'
      · subst ht'
        have : ¬t = t₀ := fun h => hp h.symm
        simp [cacheInsert, cacheFind?, hp, this]
      · simp [cacheInsert, cacheFind?, hp, ht', ih]

theorem cacheFind?_remove (cache : Cache) (t t' : TransactionID) :
    cacheFind? (removeFromCache cache t) t' =
      if t' = t then none else cacheFind? cache t' := by
  induction cache with
  | nil => by_cases h : t' = t <;> simp [removeFromCache, cacheFind?, h]
  | cons p rest ih =>
    obtain ⟨t₀, a₀⟩ := p
    by_cases hp : t₀ = t
    · subst hp
      by_cases ht : t₀ = t'
      · subst ht; simp [removeFromCache, cacheFind?, ih]
      · have : ¬t₀ = t' := ht
        simp [removeFromCache, cacheFind?, this, ih]
    · by_cases ht' : t₀ = t'
      · subst ht'
        simp [removeFromCache, cacheFind?, hp]
      · simp [removeFromCache, cacheFind?, hp, ht', ih]

/-! ## Helper lemmas: the journal scan -/

theorem findTransaction_ok_ids (j : List RawRecord) (c : ClientID) (t : TransactionID)
    (fc : ClientID) (ft : TransactionID) (a : Amount)
    (h : findTransaction j c t = .ok (fc, ft, a)) : fc = c ∧ ft = t := by
  induction j with
  | nil => simp [findTransaction] at h
  | cons r rest ih =>
    by_cases hdw : isRawDepositOrWithdrawal r.typ
    · simp only [findTransaction, hdw, if_true] at h
      cases hp : parseDepositOrWithdrawal r with
      | none => rw [hp] at h; cases h
      | some p =>
        obtain ⟨pc, pt, pa⟩ := p
        rw [hp] at h
        by_cases hm : pc = c ∧ t = pt
        · simp only [hm, if_true] at h
          injection h with h'
          simp only [Prod.mk.injEq] at h'
          obtain ⟨h1, h2, h3⟩ := h'
          exact ⟨h1.symm, (hm.2.trans h2).symm⟩
        · simp only [hm, if_false] at h
          by_cases hgt : pt > t
          · simp only [hgt, if_true] at h; cases h
          · simp only [hgt, if_false] at h; exact ih h
    · simp only [findTransaction, hdw, if_false] at h
      exact ih h

theorem findDisputeAmount_ok_cache (j : List RawRecord) (cache : Cache) (c : ClientID)
    (t : TransactionID) (a : Amount) (h : (findDisputeAmount j cache c t).2 = .ok a) :
    cacheFind? (findDisputeAmount j cache c t).1 t = some a := by
  unfold findDisputeAmount at h ⊢
  cases hc : cacheFind? cache t with
  | some cached =>
    simp only [hc] at h ⊢
    injection h with h'
    rw [h']
  | none =>
    simp only [hc] at h ⊢
    cases hs : findTransaction j c t with
    | ok found =>
      simp only [hs] at h ⊢
      injection h with h'
      rw [cacheFind?_insert, if_pos rfl, h']
    | error e => simp only [hs] at h; cases h

theorem findDisputeAmount_cache_lookup (j : List RawRecord) (cache : Cache)
    (c₀ : ClientID) (t₀ t' : TransactionID) (a' : Amount)
    (h : cacheFind? (findDisputeAmount j cache c₀ t₀).1 t' = some a') :
    cacheFind? cache t' = some a' ∨
      (t' = t₀ ∧ findTransaction j c₀ t' = .ok (c₀, t', a')) := by
  unfold findDisputeAmount at h
  cases hc : cacheFind? cache t₀ with
  | some cached => simp only [hc] at h; exact Or.inl h
  | none =>
    simp only [hc] at h
    cases hs : findTransaction j c₀ t₀ with
    | ok found =>
      obtain ⟨fc, ft, fa⟩ := found
      obtain ⟨h1, h2⟩ := findTransaction_ok_ids j c₀ t₀ fc ft fa hs
      subst h1; subst h2
      simp only [hs] at h
      rw [cacheFind?_insert] at h
      by_cases ht : ft = t'
      · subst ht
        rw [if_pos rfl] at h
        injection h with h'
        exact Or.inr ⟨rfl, by rw [hs, h']⟩
      · rw [if_neg ht] at h
        exact Or.inl h
    | error e => simp only [hs] at h; exact Or.inl h

/-! ## Helper lemmas: whitespace stripping -/

theorem contains_space_filter (l : List Char) :
    ((l.filter fun c => !isAsciiWhitespace c).contains ' ') = false := by
  induction l with
  | nil => rfl
  | cons c rest ih =>
    by_cases hc : isAsciiWhitespace c = true
    · simp only [List.filter, hc, Bool.not_true]
      exact ih
    · simp only [List.filter, Bool.not_eq_true] at hc
      simp only [List.filter, hc, Bool.not_false]
      have hne : (' ' == c) = false := by
        cases hsp : (' ' == c) with
        | false => rfl
        | true =>
          have : ' ' = c := eq_of_beq hsp
          rw [← this] at hc
          cases hc
      simp only [List.contains_cons, hne, Bool.false_or]
      exact ih

theorem stripAsciiWhitespace_no_space (s : String) :
    containsSpaceByte (stripAsciiWhitespace s) = false :=
  contains_space_filter s.data

/-! ## Helper lemmas: the report rows -/

theorem printReport_row_iff (accs : Accounts) (c : ClientID) :
    (∃ row ∈ printReport accs, row.client = c) ↔ hasAccount accs c := by
  unfold printReport
  constructor
  · rintro ⟨row, hrow, hc⟩
    rw [List.mem_map] at hrow
    obtain ⟨p, hp, rfl⟩ := hrow
    obtain ⟨d', hd'⟩ := Accounts.mem_find?_isSome accs p.1 p.2 hp
    exact ⟨d', by rw [← hc]; exact hd'⟩
  · rintro ⟨d, hd⟩
    exact ⟨⟨c, d.available, d.held, d.total, d.accountStatus.isFrozen⟩,
      List.mem_map_of_mem _ (Accounts.find?_mem accs c d hd), rfl⟩

/-! ## Helper lemmas: the journal scan agrees with its specification -/

theorem findTransaction_eq_spec (j : List RawRecord)
    (entries : List (ClientID × TransactionID × Amount)) (c : ClientID) (t : TransactionID)
    (h : depositWithdrawalEntries j = some entries) :
    findTransaction j c t =
      match findTransactionSpec entries c t with
      | some a => .ok (c, t, a)
      | none => .error .notFound := by
  induction j generalizing entries with
  | nil =>
    simp only [depositWithdrawalEntries] at h
    injection h with h'
    subst h'
    simp [findTransaction, findTransactionSpec]
  | cons r rest ih =>
    by_cases hdw : isRawDepositOrWithdrawal r.typ
    · simp only [depositWithdrawalEntries, hdw, if_true] at h
      cases hp : parseDepositOrWithdrawal r with
      | none => rw [hp] at h; cases h
      | some p =>
        rw [hp] at h
        cases hrest : depositWithdrawalEntries rest with
        | none => rw [hrest] at h; cases h
        | some l =>
          rw [hrest] at h
          injection h with h'
          subst h'
          obtain ⟨pc, pt, pa⟩ := p
          simp only [findTransaction, hdw, if_true, hp, findTransactionSpec]
          by_cases hm : pc = c ∧ t = pt
          · have hm' : pc = c ∧ pt = t := ⟨hm.1, hm.2.symm⟩
            rw [if_pos hm, if_pos hm', hm.1, ← hm.2]
          · have hm' : ¬(pc = c ∧ pt = t) := fun hx => hm ⟨hx.1, hx.2.symm⟩
            rw [if_neg hm, if_neg hm']
            by_cases hgt : pt > t
            · rw [if_pos hgt, if_pos hgt]
            · rw [if_neg hgt, if_neg hgt]
              exact ih l hrest
    · simp only [depositWithdrawalEntries, hdw, if_false] at h
      simp only [findTransaction, hdw, if_false]
      exact ih entries h

/-! ## Claim theorems -/

/-- C1: for every account in the ledger, starting from the all-zero initial
account, after every applied operation (deposit, withdrawal, dispute,
resolve, chargeback, including rejected withdrawals) — i.e., after the
aggregator has processed any list of transaction messages — the account's
total equals available plus held. -/
theorem c1_total_eq_available_plus_held (msgs : List TransactionMessage) (c : ClientID)
    (d : AccountDetails) (h : (applyMessages msgs Accounts.empty).find? c = some d) :
    d.total = d.available + d.held := by
  have hb := balanced_applyMessages msgs Accounts.empty
    (by intro p hp; simp [Accounts.empty] at hp)
  simpa using hb _ (Accounts.find?_mem _ _ _ h)

/-- Witness for C1: deposit 5.0 then withdraw 2.0 leaves client 1 with
total = available = 3.0, held = 0, and total = available + held. -/
theorem c1_total_eq_available_plus_held_witness :
    (applyMessages [TransactionMessage.deposit 1 (wholeDecimal 5),
        TransactionMessage.withdrawal 1 (wholeDecimal 2)] Accounts.empty).find? 1 =
      some ⟨.active, wholeDecimal 3, wholeDecimal 3, 0⟩ ∧
    (AccountDetails.mk .active (wholeDecimal 3) (wholeDecimal 3) 0).total =
      (AccountDetails.mk .active (wholeDecimal 3) (wholeDecimal 3) 0).available +
      (AccountDetails.mk .active (wholeDecimal 3) (wholeDecimal 3) 0).held :=
  ⟨by decide, c1_total_eq_available_plus_held
    [TransactionMessage.deposit 1 (wholeDecimal 5),
      TransactionMessage.withdrawal 1 (wholeDecimal 2)] 1
    ⟨.active, wholeDecimal 3, wholeDecimal 3, 0⟩ (by decide)⟩

/-- C2 counterexample: the pipeline CAN deliver a resolver-emitted resolve
with no prior dispute. On the journal `deposit,1,1,5.0` / `resolve,1,1`
the resolver finds transaction 1 by re-scan and emits `Resolve(1, 5.0)`;
applying the delivered messages leaves client 1 with held = −5.0 < 0 and
available = 10.0 > total = 5.0, violating both inequalities of the claim. -/
theorem c2_counterexample :
    Accounts.find? (applyMessages (runPipelineSeq
        [⟨"deposit", "1", "1", "5.0"⟩, ⟨"resolve", "1", "1", ""⟩]) Accounts.empty) 1 =
      some ⟨.active, wholeDecimal 5, wholeDecimal 10, wholeDecimal (-5)⟩ ∧
    wholeDecimal (-5) < 0 ∧ ¬(wholeDecimal 10 ≤ wholeDecimal 5) := by decide

/-- C2 amended: the invariant that does hold at every point of every run is
`available + held = total`; consequently `available ≤ total` holds exactly
when `held ≥ 0`. The claimed stronger invariant (`held ≥ 0` outright)
fails: a resolver-emitted resolve with no prior dispute drives `held`
negative (see the counterexample). -/
theorem c2_amended_available_le_total_iff_held_nonneg (msgs : List TransactionMessage)
    (c : ClientID) (d : AccountDetails)
    (h : (applyMessages msgs Accounts.empty).find? c = some d) :
    d.total = d.available + d.held ∧ (d.available ≤ d.total ↔ 0 ≤ d.held) := by
  have hb := balanced_applyMessages msgs Accounts.empty
    (by intro p hp; simp [Accounts.empty] at hp)
  have hd := hb _ (Accounts.find?_mem _ _ _ h)
  simp only at hd
  exact ⟨hd, by constructor <;> intro <;> linarith⟩

/-- Witness for C2 (amended form) at a concrete run. -/
theorem c2_amended_available_le_total_iff_held_nonneg_witness :
    (applyMessages [TransactionMessage.deposit 2 (wholeDecimal 7)] Accounts.empty).find? 2 =
      some ⟨.active, wholeDecimal 7, wholeDecimal 7, 0⟩ ∧
    ((AccountDetails.mk .active (wholeDecimal 7) (wholeDecimal 7) 0).total =
      (AccountDetails.mk .active (wholeDecimal 7) (wholeDecimal 7) 0).available +
      (AccountDetails.mk .active (wholeDecimal 7) (wholeDecimal 7) 0).held ∧
    ((AccountDetails.mk .active (wholeDecimal 7) (wholeDecimal 7) 0).available ≤
        (AccountDetails.mk .active (wholeDecimal 7) (wholeDecimal 7) 0).total ↔
      0 ≤ (AccountDetails.mk .active (wholeDecimal 7) (wholeDecimal 7) 0).held)) :=
  ⟨by decide, c2_amended_available_le_total_iff_held_nonneg
    [TransactionMessage.deposit 2 (wholeDecimal 7)] 2
    ⟨.active, wholeDecimal 7, wholeDecimal 7, 0⟩ (by decide)⟩

/-- C3 counterexample: client 7's only message is a withdrawal of 5.0 that
is rejected (available = 0 < 5.0; the zero balances in the row show the
rejection), yet the report contains a row for client 7:
`Accounts::withdraw` runs `entry(...).or_insert_with(default)` BEFORE the
funds check, so even a rejected withdrawal creates the account. -/
theorem c3_counterexample :
    printReport (applyMessages [TransactionMessage.withdrawal 7 (wholeDecimal 5)]
      Accounts.empty) = [⟨7, 0, 0, 0, false⟩] := by decide

/-- C3 amended: the report contains a row for a client iff some deposit or
withdrawal message — applied or rejected — addressed that client; dispute,
resolve and chargeback messages never create an account. (The claim as
written fails only in counting rejected withdrawals: they do create a
zero-balance row.) -/
theorem c3_amended_row_iff_deposit_or_withdrawal (msgs : List TransactionMessage)
    (c : ClientID) :
    (∃ row ∈ printReport (applyMessages msgs Accounts.empty), row.client = c) ↔
      ∃ m ∈ msgs, isDepositOrWithdrawalFor c m := by
  rw [printReport_row_iff, hasAccount_applyMessages]
  simp [hasAccount, Accounts.empty, Accounts.find?]

/-- C7: a withdrawal whose amount strictly exceeds the account's available
funds leaves the whole account table unchanged — in particular the
account's (available, held, total) — and surfaces no error to the caller
(`Accounts::withdraw` returns unit: a warning is logged and the message is
dropped, which the model reflects by `withdraw` having no error channel). -/
theorem c7_withdrawal_guard (accs : Accounts) (c : ClientID) (d : AccountDetails)
    (a : Amount) (hfind : accs.find? c = some d) (hgt : a > d.available) :
    accs.withdraw c a = accs := by
  unfold Accounts.withdraw
  rw [hfind]
  simp [hgt]

/-- Witness for C7: withdrawing 9.0 from an account holding 4.0 leaves the
table unchanged. -/
theorem c7_withdrawal_guard_witness :
    Accounts.find? [(3, ⟨.active, wholeDecimal 4, wholeDecimal 4, 0⟩)] 3 =
      some ⟨.active, wholeDecimal 4, wholeDecimal 4, 0⟩ ∧
    wholeDecimal 9 > (AccountDetails.mk .active (wholeDecimal 4) (wholeDecimal 4) 0).available ∧
    Accounts.withdraw [(3, ⟨.active, wholeDecimal 4, wholeDecimal 4, 0⟩)] 3 (wholeDecimal 9) =
      [(3, ⟨.active, wholeDecimal 4, wholeDecimal 4, 0⟩)] :=
  ⟨by decide, by decide, c7_withdrawal_guard
    [(3, ⟨.active, wholeDecimal 4, wholeDecimal 4, 0⟩)] 3
    ⟨.active, wholeDecimal 4, wholeDecimal 4, 0⟩ (wholeDecimal 9) (by decide) (by decide)⟩

/-- C10: once a chargeback sets an account's status to Frozen, the account
stays Frozen after every further sequence of operations (deposit,
withdrawal, dispute, resolve or another chargeback): no transition returns
the status to Active. -/
theorem c10_freeze_permanent (accs accs' : Accounts) (c : ClientID) (a : Amount)
    (msgs : List TransactionMessage) (hcb : accs.chargeback c a = .ok accs') :
    frozenAt accs' c ∧ frozenAt (applyMessages msgs accs') c := by
  unfold Accounts.chargeback at hcb
  cases hf : accs.find? c with
  | none => rw [hf] at hcb; cases hcb
  | some d =>
    rw [hf] at hcb
    injection hcb with h'
    subst h'
    have hfz : frozenAt (accs.set c (d.chargeback a)) c :=
      ⟨d.chargeback a, Accounts.find?_set_self accs c _, by simp [AccountDetails.chargeback]⟩
    exact ⟨hfz, frozenAt_applyMessages msgs _ c hfz⟩

/-- Witness for C10: a chargeback of the 5.0 held by client 1 freezes the
account, and it stays frozen after a further deposit. -/
theorem c10_freeze_permanent_witness :
    Accounts.chargeback [(1, ⟨.active, wholeDecimal 5, 0, wholeDecimal 5⟩)] 1 (wholeDecimal 5) =
      .ok [(1, ⟨.frozen, 0, 0, 0⟩)] ∧
    (frozenAt [(1, ⟨.frozen, 0, 0, 0⟩)] 1 ∧
      frozenAt (applyMessages [TransactionMessage.deposit 1 (wholeDecimal 2)]
        [(1, ⟨.frozen, 0, 0, 0⟩)]) 1) :=
  ⟨by decide, c10_freeze_permanent
    [(1, ⟨.active, wholeDecimal 5, 0, wholeDecimal 5⟩)] [(1, ⟨.frozen, 0, 0, 0⟩)]
    1 (wholeDecimal 5) [TransactionMessage.deposit 1 (wholeDecimal 2)] (by decide)⟩

/-- C4 counterexample: the cache is keyed by transaction id alone, and a
cache hit never checks the client id. On journal `deposit,1,5,3.0`, a
dispute by client 1 populates the cache with (5 ↦ 3.0). The look-up
request (client 2, tx 5) then succeeds via the cache hit, but after the
entry is evicted the re-scan fails (client mismatch): the two paths give
different outcomes, hence different resulting account state. -/
theorem c4_counterexample :
    (findDisputeAmount [⟨"deposit", "1", "5", "3.0"⟩] [] 1 5).1 = [(5, wholeDecimal 3)] ∧
    (findDisputeAmount [⟨"deposit", "1", "5", "3.0"⟩] [(5, wholeDecimal 3)] 2 5).2 =
      .ok (wholeDecimal 3) ∧
    (findDisputeAmount [⟨"deposit", "1", "5", "3.0"⟩]
        (removeFromCache [(5, wholeDecimal 3)] 5) 2 5).2 = .error .notFound := by decide

/-- C4 amended: the cache-hit path and the post-eviction re-scan path give
the identical outcome provided the cached amount for the transaction id is
what the journal scan returns for THIS (client id, transaction id) request
— in particular whenever the entry was cached by a look-up with the same
client id. When the entry was populated by a different client's look-up,
the hit can succeed where the re-scan fails, since the cache is keyed by
transaction id alone and a hit does not check the client id. -/
theorem c4_amended_cache_hit_eq_rescan (j : List RawRecord) (cache : Cache)
    (c : ClientID) (t : TransactionID) (a : Amount)
    (hcache : cacheFind? cache t = some a)
    (hscan : findTransaction j c t = .ok (c, t, a)) :
    (findDisputeAmount j cache c t).2 = .ok a ∧
    (findDisputeAmount j (removeFromCache cache t) c t).2 = .ok a := by
  have hr : cacheFind? (removeFromCache cache t) t = none := by
    rw [cacheFind?_remove]; simp
  constructor
  · unfold findDisputeAmount
    simp only [hcache]
  · unfold findDisputeAmount
    simp only [hr, hscan]

/-- Witness for C4 (amended form): with the cache entry created by the same
client's look-up, hit and re-scan agree. -/
theorem c4_amended_cache_hit_eq_rescan_witness :
    cacheFind? [(5, wholeDecimal 3)] 5 = some (wholeDecimal 3) ∧
    findTransaction [⟨"deposit", "1", "5", "3.0"⟩] 1 5 = .ok (1, 5, wholeDecimal 3) ∧
    ((findDisputeAmount [⟨"deposit", "1", "5", "3.0"⟩] [(5, wholeDecimal 3)] 1 5).2 =
        .ok (wholeDecimal 3) ∧
      (findDisputeAmount [⟨"deposit", "1", "5", "3.0"⟩]
          (removeFromCache [(5, wholeDecimal 3)] 5) 1 5).2 = .ok (wholeDecimal 3)) :=
  ⟨by decide, by decide, c4_amended_cache_hit_eq_rescan [⟨"deposit", "1", "5", "3.0"⟩]
    [(5, wholeDecimal 3)] 1 5 (wholeDecimal 3) (by decide) (by decide)⟩

/-- C5 counterexample: a deposit record whose client field carries embedded
whitespace (`" 1"`) is a fatal parse error — `parse_deposit_or_withdrawal`
parses the client and tx fields raw, with no whitespace stripping — while
the whitespace-free record parses fine. -/
theorem c5_counterexample :
    parseDepositOrWithdrawal ⟨"deposit", " 1", "2", "5.0"⟩ = none ∧
    parseDepositOrWithdrawal ⟨"deposit", "1", "2", "5.0"⟩ = some (1, 2, wholeDecimal 5) := by
  decide

/-- C5 amended: only the amount field tolerates embedded whitespace — when
it contains a space byte, all its ASCII whitespace is stripped before
decimal parsing, so the record parses exactly as the whitespace-free
amount does. The client and tx fields are parsed raw: embedded whitespace
there is a fatal parse error (see the counterexample). -/
theorem c5_amended_amount_whitespace_stripped (ty cl tx am : String)
    (h : containsSpaceByte am = true) :
    parseDepositOrWithdrawal ⟨ty, cl, tx, am⟩ =
      parseDepositOrWithdrawal ⟨ty, cl, tx, stripAsciiWhitespace am⟩ := by
  unfold parseDepositOrWithdrawal
  simp only [h, stripAsciiWhitespace_no_space, if_true, if_false, Bool.false_eq_true]

/-- Witness for C5 (amended form): `"5. 0"` parses as `"5.0"` does. -/
theorem c5_amended_amount_whitespace_stripped_witness :
    containsSpaceByte "5. 0" = true ∧
    parseDepositOrWithdrawal ⟨"deposit", "1", "2", "5. 0"⟩ =
      parseDepositOrWithdrawal ⟨"deposit", "1", "2", stripAsciiWhitespace "5. 0"⟩ :=
  ⟨by decide, c5_amended_amount_whitespace_stripped "deposit" "1" "2" "5. 0" (by decide)⟩

/-- C6: `find_transaction` scans the journal from the start over
deposit/withdrawal records only and returns the amount (with the request's
ids) of the first record whose client id and transaction id both match
exactly; it reports not-found as soon as a scanned deposit/withdrawal
record's transaction id strictly exceeds the requested id, or at end of
file — as captured by the spec-side `findTransactionSpec` over the parsed
deposit/withdrawal entries (the hypothesis says all such records parse,
i.e., no fatal parse error interrupts the scan). -/
theorem c6_find_transaction_scan_policy (j : List RawRecord)
    (entries : List (ClientID × TransactionID × Amount)) (c : ClientID) (t : TransactionID)
    (h : depositWithdrawalEntries j = some entries) :
    findTransaction j c t =
      match findTransactionSpec entries c t with
      | some a => .ok (c, t, a)
      | none => .error .notFound :=
  findTransaction_eq_spec j entries c t h

/-- Witness for C6 on a concrete journal: the dispute row is skipped, the
first (client 1, tx 2) record wins. -/
theorem c6_find_transaction_scan_policy_witness :
    depositWithdrawalEntries
        [⟨"deposit", "1", "1", "5.0"⟩, ⟨"dispute", "1", "1", ""⟩,
          ⟨"withdrawal", "1", "2", "1.0"⟩] =
      some [(1, 1, wholeDecimal 5), (1, 2, wholeDecimal 1)] ∧
    findTransaction
        [⟨"deposit", "1", "1", "5.0"⟩, ⟨"dispute", "1", "1", ""⟩,
          ⟨"withdrawal", "1", "2", "1.0"⟩] 1 2 =
      match findTransactionSpec [(1, 1, wholeDecimal 5), (1, 2, wholeDecimal 1)] 1 2 with
      | some a => .ok (1, 2, a)
      | none => .error .notFound :=
  ⟨by decide, c6_find_transaction_scan_policy
    [⟨"deposit", "1", "1", "5.0"⟩, ⟨"dispute", "1", "1", ""⟩,
      ⟨"withdrawal", "1", "2", "1.0"⟩]
    [(1, 1, wholeDecimal 5), (1, 2, wholeDecimal 1)] 1 2 (by decide)⟩

/-- C8: given a look-up that succeeds with amount `a` for (c, t): handling
a Dispute emits the dispute message and leaves the cache entry for `t` in
place (mapped to `a`); handling a Resolve or Chargeback emits its message
and removes the entry, so a later request for `t` cannot be served from
the cache; and the cache is populated only by a successful look-up — any
entry of the post-step cache was either already present or is the amount
`find_transaction` returns for the handled request. -/
theorem c8_cache_discipline (j : List RawRecord) (cache : Cache) (c : ClientID)
    (t : TransactionID) (a : Amount)
    (h : (findDisputeAmount j cache c t).2 = .ok a) :
    (resolverStep j cache (.dispute c t)).2 = [.dispute c a] ∧
    cacheFind? (resolverStep j cache (.dispute c t)).1 t = some a ∧
    (resolverStep j cache (.resolve c t)).2 = [.resolve c a] ∧
    cacheFind? (resolverStep j cache (.resolve c t)).1 t = none ∧
    (resolverStep j cache (.chargeback c t)).2 = [.chargeback c a] ∧
    cacheFind? (resolverStep j cache (.chargeback c t)).1 t = none ∧
    (∀ (m : DisputeLookUpMessage) (t' : TransactionID) (a' : Amount),
      cacheFind? (resolverStep j cache m).1 t' = some a' →
      cacheFind? cache t' = some a' ∨
        (t' = m.transactionId ∧
          findTransaction j m.clientId t' = .ok (m.clientId, t', a'))) := by
  have hcach := findDisputeAmount_ok_cache j cache c t a h
  rcases hfd : findDisputeAmount j cache c t with ⟨cache', res⟩
  rw [hfd] at h hcach
  simp only at h hcach
  subst h
  refine ⟨?_, ?_, ?_, ?_, ?_, ?_, ?_⟩
  · simp only [resolverStep, hfd]
  · simp only [resolverStep, hfd]; exact hcach
  · simp only [resolverStep, hfd]
  · simp only [resolverStep, hfd]
    rw [cacheFind?_remove]; simp
  · simp only [resolverStep, hfd]
  · simp only [resolverStep, hfd]
    rw [cacheFind?_remove]; simp
  · intro m t' a' hm
    cases m with
    | dispute c₀ t₀ =>
      simp only [resolverStep] at hm
      rcases hfd₀ : findDisputeAmount j cache c₀ t₀ with ⟨cache₀, res₀⟩
      rw [hfd₀] at hm
      cases res₀ with
      | ok a₀ =>
        simp only at hm
        have := findDisputeAmount_cache_lookup j cache c₀ t₀ t' a'
          (by rw [hfd₀]; exact hm)
        simpa [DisputeLookUpMessage.clientId, DisputeLookUpMessage.transactionId] using this
      | error e =>
        simp only at hm
        have := findDisputeAmount_cache_lookup j cache c₀ t₀ t' a'
          (by rw [hfd₀]; exact hm)
        simpa [DisputeLookUpMessage.clientId, DisputeLookUpMessage.transactionId] using this
    | resolve c₀ t₀ =>
      simp only [resolverStep] at hm
      rcases hfd₀ : findDisputeAmount j cache c₀ t₀ with ⟨cache₀, res₀⟩
      rw [hfd₀] at hm
      cases res₀ with
      | ok a₀ =>
        simp only at hm
        rw [cacheFind?_remove] at hm
        by_cases ht : t' = t₀
        · rw [if_pos ht] at hm; cases hm
        · rw [if_neg ht] at hm
          have := findDisputeAmount_cache_lookup j cache c₀ t₀ t' a'
            (by rw [hfd₀]; exact hm)
          simpa [DisputeLookUpMessage.clientId, DisputeLookUpMessage.transactionId] using this
      | error e =>
        simp only at hm
        have := findDisputeAmount_cache_lookup j cache c₀ t₀ t' a'
          (by rw [hfd₀]; exact hm)
        simpa [DisputeLookUpMessage.clientId, DisputeLookUpMessage.transactionId] using this
    | chargeback c₀ t₀ =>
      simp only [resolverStep] at hm
      rcases hfd₀ : findDisputeAmount j cache c₀ t₀ with ⟨cache₀, res₀⟩
      rw [hfd₀] at hm
      cases res₀ with
      | ok a₀ =>
        simp only at hm
        rw [cacheFind?_remove] at hm
        by_cases ht : t' = t₀
        · rw [if_pos ht] at hm; cases hm
        · rw [if_neg ht] at hm
          have := findDisputeAmount_cache_lookup j cache c₀ t₀ t' a'
            (by rw [hfd₀]; exact hm)
          simpa [DisputeLookUpMessage.clientId, DisputeLookUpMessage.transactionId] using this
      | error e =>
        simp only at hm
        have := findDisputeAmount_cache_lookup j cache c₀ t₀ t' a'
          (by rw [hfd₀]; exact hm)
        simpa [DisputeLookUpMessage.clientId, DisputeLookUpMessage.transactionId] using this

/-- Witness for C8 at a concrete journal and empty cache. -/
theorem c8_cache_discipline_witness :
    (findDisputeAmount [⟨"deposit", "1", "5", "3.0"⟩] [] 1 5).2 = .ok (wholeDecimal 3) ∧
    (resolverStep [⟨"deposit", "1", "5", "3.0"⟩] [] (.dispute 1 5)).2 =
      [.dispute 1 (wholeDecimal 3)] ∧
    cacheFind? (resolverStep [⟨"deposit", "1", "5", "3.0"⟩] [] (.dispute 1 5)).1 5 =
      some (wholeDecimal 3) ∧
    (resolverStep [⟨"deposit", "1", "5", "3.0"⟩] [] (.resolve 1 5)).2 =
      [.resolve 1 (wholeDecimal 3)] ∧
    cacheFind? (resolverStep [⟨"deposit", "1", "5", "3.0"⟩] [] (.resolve 1 5)).1 5 = none :=
  have hc8 := c8_cache_discipline [⟨"deposit", "1", "5", "3.0"⟩] [] 1 5 (wholeDecimal 3)
    (by decide)
  ⟨by decide, hc8.1, hc8.2.1, hc8.2.2.1, hc8.2.2.2.1⟩

/-- C9 counterexample: the type token `"de posit"` (embedded space) is
classified as a deposit by the Parser's `parse_type`, and the record's
fields parse fine — yet `find_transaction`'s re-scan, which matches the
raw bytes `b"deposit" | b"withdrawal"` without stripping, skips the record
and reports not-found for the very (client, tx) the Parser accepted. -/
theorem c9_counterexample :
    parseType "de posit" = some RecordType.deposit ∧
    parseDepositOrWithdrawal ⟨"de posit", "1", "1", "5.0"⟩ = some (1, 1, wholeDecimal 5) ∧
    findTransaction [⟨"de posit", "1", "1", "5.0"⟩] 1 1 = .error .notFound := by decide

/-- C9 amended: only the Parser strips whitespace from the type token; the
re-scan matches the raw token. The two readers therefore agree exactly on
whitespace-free type tokens: for a token with no space byte, the Parser
classifies it as deposit/withdrawal iff the re-scan's raw-byte test
accepts it. A deposit/withdrawal token with embedded whitespace is
recognized by the Parser but skipped by the re-scan (see counterexample). -/
theorem c9_amended_agreement_on_space_free_tokens (s : String)
    (h : containsSpaceByte s = false) :
    (parseType s = some RecordType.deposit ∨ parseType s = some RecordType.withdrawal) ↔
      isRawDepositOrWithdrawal s = true := by
  unfold parseType
  rw [h]
  simp only [Bool.false_eq_true, if_false]
  unfold matchTypeToken isRawDepositOrWithdrawal
  by_cases h1 : s = "deposit"
  · simp [h1]
  · by_cases h2 : s = "withdrawal"
    · simp [h1, h2]
    · by_cases h3 : s = "dispute"
      · simp [h1, h2, h3]
      · by_cases h4 : s = "resolve"
        · simp [h1, h2, h3, h4]
        · by_cases h5 : s = "chargeback"
          · simp [h1, h2, h3, h4, h5]
          · simp [h1, h2, h3, h4, h5]

/-- Witness for C9 (amended form) at the token `"withdrawal"`. -/
theorem c9_amended_agreement_on_space_free_tokens_witness :
    containsSpaceByte "withdrawal" = false ∧
    ((parseType "withdrawal" = some RecordType.deposit ∨
        parseType "withdrawal" = some RecordType.withdrawal) ↔
      isRawDepositOrWithdrawal "withdrawal" = true) :=
  ⟨by decide, c9_amended_agreement_on_space_free_tokens "withdrawal" (by decide)⟩

end Tren
